import Mathlib

/-!
Shallow embedding of the AkinatorEngine Bayesian question engine
(`src/model.py`) together with the category-resolution step of the server's
answer handler (`src/server.py`).

Modelling conventions:
* Tensors become lists of rationals (`List ℚ`); the knowledge base is a list
  of rows (`List (List ℚ)`), index `(i, j)` = candidate `i`, feature `j`.
* Machine floats become exact rationals; the float literals of the source
  (`0.9`, `0.1`, `1e-6`, `1e-7`, `1e-12`, `0.03`, `0.97`, `0.001`, `0.3`,
  `0.7`) are carried over as the rationals they denote.
* The value `-inf` used by `masked_fill` is modelled as `none` in
  `Option ℚ`: a masked feature has entropy `none`, an unmasked one
  `some e`.  Adding a finite number to `-inf` keeps `-inf`, matching
  `Option.map`.
* The two transcendental quantities — the binary entropy
  `-p·log2 p - (1-p)·log2 (1-p)` of `_compute_entropy_mask` and the
  per-feature top-K discrimination term of `_entropy_topk` — are irrational
  and have no exact rational value; they are passed in as explicit function
  arguments `H : ℚ → ℚ` (applied to the clamped `p_yes`, exactly as the
  source applies its entropy formula to the clamped probability) and
  `topk : ℕ → ℚ`.  Every theorem below holds for all values of these
  arguments, hence in particular for the source's entropy; concrete
  evaluations instantiate them with the surrogate `Hsur`/`topk0`.
-/

/-- Constant `MAX_QUESTIONS_PER_CATEGORY = 4` from model.py. -/
def MAX_QUESTIONS_PER_CATEGORY : ℕ := 4

/-- Constant `YES_THRESHOLD = 0.7` from model.py. -/
def YES_THRESHOLD : ℚ := 7/10

/-- Constant `MIN_P_YES = 0.03` from model.py. -/
def MIN_P_YES : ℚ := 3/100

/-- Constant `MAX_P_YES = 0.97` from model.py. -/
def MAX_P_YES : ℚ := 97/100

/-- Constant `SOFT_MIN_LIKELIHOOD = 0.1` from model.py. -/
def SOFT_MIN_LIKELIHOOD : ℚ := 1/10

/-- Constant `SOFT_MATCH_LIKELIHOOD = 0.9` from model.py. -/
def SOFT_MATCH_LIKELIHOOD : ℚ := 9/10

/-- Constant `TOP_K_DISCRIMINATION_BETA = 0.3` from model.py. -/
def TOP_K_DISCRIMINATION_BETA : ℚ := 3/10

/-- Constant `NARROWED_EFFECTIVE_N = 25` from model.py. -/
def NARROWED_EFFECTIVE_N : ℕ := 25

/-- Constant `EFFECTIVE_PROB_THRESHOLD = 0.001` from model.py. -/
def EFFECTIVE_PROB_THRESHOLD : ℚ := 1/1000

/-- The engine's loaded state (`AkinatorEngine.__init__`): knowledge-base
matrix `KB` (N rows × M columns), normalized prior, candidate names and
feature texts.  `N = KB.length`, `M = features.length`. -/
structure AkinatorEngine where
  KB : List (List ℚ)
  prior_probs : List ℚ
  candidates : List String
  features : List String
deriving Repr

namespace AkinatorEngine

/-- Number of features `M = self.M` of the engine. -/
def M (e : AkinatorEngine) : ℕ := e.features.length

/-- Number of candidates `N = self.N` of the engine. -/
def N (e : AkinatorEngine) : ℕ := e.KB.length

/-- Python `str.strip()` on the character sequence of a string: drop
whitespace from both ends. -/
def trimChars (l : List Char) : List Char :=
  ((l.dropWhile Char.isWhitespace).reverse.dropWhile Char.isWhitespace).reverse

/-- Python `str.lower()` on a character sequence. -/
def lowerChars (l : List Char) : List Char := l.map Char.toLower

/-- Python `str.startswith(pat)`: first argument is the pattern. -/
def beginsWith : List Char → List Char → Bool
  | [], _ => true
  | _ :: _, [] => false
  | p :: ps, c :: cs => p == c && beginsWith ps cs

/-- Python `str.rstrip("?")` on a character sequence: drop trailing
question marks. -/
def dropTrailingQ (l : List Char) : List Char :=
  (l.reverse.dropWhile (fun c => c == '?')).reverse

/-- Category of a feature text (`_feature_category`): case-insensitive
match on a fixed phrasing after stripping whitespace; `none` otherwise.
Strings are handled as their character sequences, matching Python
string semantics. -/
def feature_category (s : String) : Option String :=
  let t := lowerChars (trimChars s.data)
  if beginsWith "is gender ".data t then some "gender"
  else if beginsWith "is country ".data t then some "country"
  else if beginsWith "is occupation ".data t then some "occupation"
  else none

/-- Value token of a feature text (`_feature_value`), as a character
sequence: the part after the fixed phrasing (whose lengths are 10, 11 and
14 characters), with trailing question marks removed and whitespace
stripped; empty if the text matches no phrasing. -/
def feature_value (s : String) : List Char :=
  let t := trimChars s.data
  if beginsWith "Is gender ".data t then trimChars (dropTrailingQ (t.drop 10))
  else if beginsWith "Is country ".data t then trimChars (dropTrailingQ (t.drop 11))
  else if beginsWith "Is occupation ".data t then trimChars (dropTrailingQ (t.drop 14))
  else []

/-- Check for an "Unknown" question (`_is_unknown_value`). -/
def is_unknown_value (s : String) : Bool :=
  lowerChars (feature_value s) == "unknown".data

/-- Category of a question index (`get_category_of_question`):
bounds-checked lookup into `features` followed by `feature_category`. -/
def get_category_of_question (e : AkinatorEngine) (q : ℕ) : Option String :=
  if q < e.M then feature_category (e.features.getD q "") else none

/-- Dot product of two rational lists (the reduction behind `torch.mv`). -/
def dot (xs ys : List ℚ) : ℚ := (List.zipWith (fun a b => a * b) xs ys).sum

/-- Column `j` of the knowledge base, `self.KB[:, j]`. -/
def colKB (e : AkinatorEngine) (j : ℕ) : List ℚ :=
  e.KB.map (fun row => row.getD j 0)

/-- Probability of a Yes answer on feature `j` under `probs`:
`p_yes[j] = Σ_i probs[i] * KB[i, j]`, i.e. `torch.mv(self.KB.T, probs)[j]`. -/
def pYes (e : AkinatorEngine) (probs : List ℚ) (j : ℕ) : ℚ :=
  dot probs (colKB e j)

/-- Clamp of `torch.clamp(x, lo, hi)`. -/
def clampQ (lo hi x : ℚ) : ℚ := max lo (min hi x)

/-- Per-category asked count, `asked_count_per_category.get(cat, 0)`. -/
def lookupCount (counts : List (String × ℕ)) (c : String) : ℕ :=
  ((counts.find? (fun p => p.1 == c)).map Prod.snd).getD 0

/-- Guard of masking step 1 of `_compute_entropy_mask`: feature already
asked (`masked_fill(asked_mask, -inf)`). -/
def guardAsked (asked : List Bool) (j : ℕ) : Bool := asked.getD j false

/-- Guard of masking step 2: the question's value token is "Unknown". -/
def guardUnknown (e : AkinatorEngine) (j : ℕ) : Bool :=
  is_unknown_value (e.features.getD j "")

/-- Guard of masking step 3: `p_yes` outside `[min_p_yes, max_p_yes]`,
active only when both bounds are given (`use_p_yes_bounds`). -/
def guardBounds (e : AkinatorEngine) (probs : List ℚ) (minP maxP : Option ℚ)
    (j : ℕ) : Bool :=
  minP.isSome && maxP.isSome &&
    (decide (pYes e probs j < minP.getD 0) || decide (maxP.getD 0 < pYes e probs j))

/-- Guard of masking step 4: the feature's category is resolved. -/
def guardResolved (e : AkinatorEngine) (resolved : List String) (j : ℕ) : Bool :=
  match feature_category (e.features.getD j "") with
  | some c => resolved.contains c
  | none => false

/-- Guard of masking step 5: the feature's category reached the
per-category cap, active only when `apply_cap`. -/
def guardCap (e : AkinatorEngine) (counts : List (String × ℕ))
    (applyCap : Bool) (j : ℕ) : Bool :=
  applyCap && (match feature_category (e.features.getD j "") with
    | some c => decide (MAX_QUESTIONS_PER_CATEGORY ≤ lookupCount counts c)
    | none => false)

/-- Guard of masking step 6: same category as the last-asked feature
(with the source's `0 ≤ last_asked_idx < M` bounds check), active only
when `skip_same_category`. -/
def guardSame (e : AkinatorEngine) (last : Option ℕ) (skipSame : Bool)
    (j : ℕ) : Bool :=
  skipSame && (match last with
    | some l => decide (l < e.M) &&
        (match feature_category (e.features.getD l "") with
         | some lc => feature_category (e.features.getD j "") == some lc
         | none => false)
    | none => false)

/-- Combined mask condition for feature `j`: the six masking steps of
`_compute_entropy_mask` each overwrite the entry with `-inf`, so their
sequential effect on entry `j` is the disjunction of the six guards, in
source order. -/
def maskGuard (e : AkinatorEngine) (probs : List ℚ) (asked : List Bool)
    (last : Option ℕ) (resolved : List String) (counts : List (String × ℕ))
    (skipSame applyCap : Bool) (minP maxP : Option ℚ) (j : ℕ) : Bool :=
  guardAsked asked j || guardUnknown e j || guardBounds e probs minP maxP j ||
    guardResolved e resolved j || guardCap e counts applyCap j ||
    guardSame e last skipSame j

/-- Entry `j` of the masked entropy vector of `_compute_entropy_mask`
(pointwise form).  `none` models `-inf`.  An unmasked entry is the
entropy `H` of the clamped `p_yes`, the source's
`-p·log2 p - (1-p)·log2 (1-p)` at `p = p_yes.clamp(1e-7, 1 - 1e-7)`. -/
def maskEntry (e : AkinatorEngine) (H : ℚ → ℚ) (probs : List ℚ)
    (asked : List Bool) (last : Option ℕ) (resolved : List String)
    (counts : List (String × ℕ)) (skipSame applyCap : Bool)
    (minP maxP : Option ℚ) (j : ℕ) : Option ℚ :=
  if maskGuard e probs asked last resolved counts skipSame applyCap minP maxP j then none
  else some (H (clampQ (1/10000000) (1 - 1/10000000) (pYes e probs j)))

/-- Scan computing `argmax` guarded by the `-inf` check of
`_pick_best_question`: returns `none` when every score is `-inf`
(`score.max() <= -inf`), otherwise the first index attaining the maximal
finite score, paired with that score. -/
def bestAux : List (Option ℚ) → ℕ → Option (ℕ × ℚ) → Option (ℕ × ℚ)
  | [], _, best => best
  | none :: rest, i, best => bestAux rest (i + 1) best
  | some v :: rest, i, none => bestAux rest (i + 1) (some (i, v))
  | some v :: rest, i, some (bi, bv) =>
      if bv < v then bestAux rest (i + 1) (some (i, v))
      else bestAux rest (i + 1) (some (bi, bv))

/-- Selection step `_pick_best_question` applied to the combined scores:
`(idx, features[idx])`, or `none` when no score is finite. -/
def pick_best_question (e : AkinatorEngine) (scores : List (Option ℚ)) :
    Option (ℕ × String) :=
  match bestAux scores 0 none with
  | none => none
  | some (i, _) => some (i, e.features.getD i "")

/-- Combined score of feature `j`:
`score = entropy + TOP_K_DISCRIMINATION_BETA * entropy_topk` of
`_pick_best_question`; a masked (`-inf`) entropy stays masked. -/
def scoreEntry (e : AkinatorEngine) (H : ℚ → ℚ) (topk : ℕ → ℚ)
    (probs : List ℚ) (asked : List Bool) (last : Option ℕ)
    (resolved : List String) (counts : List (String × ℕ))
    (skipSame applyCap : Bool) (minP maxP : Option ℚ) (j : ℕ) : Option ℚ :=
  (maskEntry e H probs asked last resolved counts skipSame applyCap minP maxP j).map
    (fun en => en + TOP_K_DISCRIMINATION_BETA * topk j)

/-- One pass of `get_next_question`: compute the masked entropies, combine
with the top-K discrimination term, and pick the best question. -/
def pass_question (e : AkinatorEngine) (H : ℚ → ℚ) (topk : ℕ → ℚ)
    (probs : List ℚ) (asked : List Bool) (last : Option ℕ)
    (resolved : List String) (counts : List (String × ℕ))
    (skipSame applyCap : Bool) (minP maxP : Option ℚ) :
    Option (ℕ × String) :=
  pick_best_question e
    ((List.range e.M).map
      (scoreEntry e H topk probs asked last resolved counts skipSame applyCap minP maxP))

/-- Number of effective candidates,
`(current_probs > EFFECTIVE_PROB_THRESHOLD).sum().item()`. -/
def effective_n (probs : List ℚ) : ℕ :=
  probs.countP (fun p => decide (EFFECTIVE_PROB_THRESHOLD < p))

/-- Bounds `(min_p1, max_p1)` used by pass 1 of `get_next_question`:
the default `P(Yes)` bounds when `effective_n > NARROWED_EFFECTIVE_N`,
no bounds (mask skipped) otherwise. -/
def pass1_bounds (probs : List ℚ) : Option ℚ × Option ℚ :=
  if NARROWED_EFFECTIVE_N < effective_n probs then (some MIN_P_YES, some MAX_P_YES)
  else (none, none)

/-- Question selection `get_next_question`: four passes with progressively
relaxed constraints.  Pass 1: all constraints, `P(Yes)` bounds as given by
`pass1_bounds`.  Pass 2: bounds widened to `[0.01, 0.99]`, cap and
same-category kept.  Pass 3: empty per-category counts, cap off, no
bounds, same-category kept.  Pass 4: additionally `last_asked_idx = None`
and same-category off.  Returns `(idx, text)` or `none` (`(None, None)`). -/
def get_next_question (e : AkinatorEngine) (H : ℚ → ℚ) (topk : ℕ → ℚ)
    (probs : List ℚ) (asked : List Bool) (last : Option ℕ)
    (resolved : List String) (counts : List (String × ℕ)) :
    Option (ℕ × String) :=
  match pass_question e H topk probs asked last resolved counts true true
      (pass1_bounds probs).1 (pass1_bounds probs).2 with
  | some r => some r
  | none =>
    match pass_question e H topk probs asked last resolved counts true true
        (some (1/100)) (some (99/100)) with
    | some r => some r
    | none =>
      match pass_question e H topk probs asked last resolved [] true false none none with
      | some r => some r
      | none =>
        pass_question e H topk probs asked none resolved [] false false none none

/-- Likelihood vector of `update_belief`: per candidate, `0.9`/`0.1`
according to `has_feature = (KB[:, j] >= 0.5)` for a Yes/Probably or
No/Probably-not answer, and the clamped closeness `1 - |KB[i,j] - v|`
(floored at `1e-6`) for Unknown. -/
def likelihoodOf (e : AkinatorEngine) (j : ℕ) (v : ℚ) : List ℚ :=
  let col := colKB e j
  if YES_THRESHOLD ≤ v then
    col.map (fun c => if (1 : ℚ)/2 ≤ c then SOFT_MATCH_LIKELIHOOD else SOFT_MIN_LIKELIHOOD)
  else if v ≤ 1 - YES_THRESHOLD then
    col.map (fun c => if (1 : ℚ)/2 ≤ c then SOFT_MIN_LIKELIHOOD else SOFT_MATCH_LIKELIHOOD)
  else
    col.map (fun c => max (1 - |c - v|) (1/1000000))

/-- Normalization denominator of `update_belief`: the sum of the
unnormalized posterior, floored at `1e-12` to avoid collapse. -/
def beliefTotal (e : AkinatorEngine) (probs : List ℚ) (j : ℕ) (v : ℚ) : ℚ :=
  let total := (List.zipWith (fun a b => a * b) probs (likelihoodOf e j v)).sum
  if total < 1/1000000000000 then 1/1000000000000 else total

/-- Bayesian update `update_belief`: multiply by the likelihood, then
renormalize by the (floored) sum. -/
def update_belief (e : AkinatorEngine) (probs : List ℚ) (j : ℕ) (v : ℚ) :
    List ℚ :=
  let new_probs := List.zipWith (fun a b => a * b) probs (likelihoodOf e j v)
  new_probs.map (fun p => p / beliefTotal e probs j v)

/-- Maximum entry `current_probs.max().item()` (the source only evaluates
it on the nonempty belief vector; the default for `[]` is `0`). -/
def maxQ : List ℚ → ℚ
  | [] => 0
  | x :: rest => rest.foldl max x

/-- Scan behind `argmaxQ`: first index of the running maximum. -/
def argmaxAux : List ℚ → ℕ → ℕ → ℚ → ℕ
  | [], _, bi, _ => bi
  | x :: rest, i, bi, bv =>
      if bv < x then argmaxAux rest (i + 1) i x else argmaxAux rest (i + 1) bi bv

/-- Index of the maximum, `current_probs.argmax().item()` (first index
attaining the maximum). -/
def argmaxQ : List ℚ → ℕ
  | [] => 0
  | x :: rest => argmaxAux rest 1 0 x

/-- Guess resolution `get_top_guess`: `none` when the maximal probability
is below the threshold, otherwise the argmax candidate with that
probability. -/
def get_top_guess (e : AkinatorEngine) (probs : List ℚ) (threshold : ℚ) :
    Option (String × ℚ) :=
  if maxQ probs < threshold then none
  else some (e.candidates.getD (argmaxQ probs) "", maxQ probs)

/-- Category bookkeeping of the server's `answer` handler
(`server.py`): after answering question `q` with value `v`, the question's
category (when it has one) is added to `resolved_categories` exactly when
`v ≥ YES_THRESHOLD`. -/
def resolved_after (e : AkinatorEngine) (resolved : List String) (q : ℕ)
    (v : ℚ) : List String :=
  match get_category_of_question e q with
  | some c => if YES_THRESHOLD ≤ v then c :: resolved else resolved
  | none => resolved

/-- One write of the masking loops of `_compute_entropy_mask`: set entry
`j` of the (locally allocated) entropy list to `-inf` when the guard
holds. -/
def maskFoldStep (g : ℕ → Bool) (acc : List (Option ℚ)) (j : ℕ) :
    List (Option ℚ) :=
  if g j then acc.set j none else acc

/-- One masking step of `_compute_entropy_mask` as the source performs
it: a loop over `j in range(M)` conditionally overwriting `entropy[j]`
with `-inf` (equally the pointwise `masked_fill`). -/
def maskFold (n : ℕ) (g : ℕ → Bool) (l : List (Option ℚ)) :
    List (Option ℚ) :=
  (List.range n).foldl (maskFoldStep g) l

/-- Sequential form of `_compute_entropy_mask`: the unmasked entropy
vector followed by the six masking steps in source order, each modelled
as its loop of writes into the local entropy list.  Proven below to
equal the pointwise `maskEntry` form. -/
def compute_entropy_mask_seq (e : AkinatorEngine) (H : ℚ → ℚ)
    (probs : List ℚ) (asked : List Bool) (last : Option ℕ)
    (resolved : List String) (counts : List (String × ℕ))
    (skipSame applyCap : Bool) (minP maxP : Option ℚ) : List (Option ℚ) :=
  let ent0 := (List.range e.M).map
    (fun j => some (H (clampQ (1/10000000) (1 - 1/10000000) (pYes e probs j))))
  let ent1 := maskFold e.M (guardAsked asked) ent0
  let ent2 := maskFold e.M (guardUnknown e) ent1
  let ent3 := maskFold e.M (guardBounds e probs minP maxP) ent2
  let ent4 := maskFold e.M (guardResolved e resolved) ent3
  let ent5 := maskFold e.M (guardCap e counts applyCap) ent4
  maskFold e.M (guardSame e last skipSame) ent5

/-- State-threaded form of `update_belief`: every statement of the source
binds a local (`col`, `has_feature`, `likelihood`, `new_probs`, `total`);
none assigns an engine attribute or writes into `current_probs`, so the
threaded engine and the input belief pass through unchanged while a fresh
output list is produced. -/
def update_belief_st (e : AkinatorEngine) (probs : List ℚ) (j : ℕ)
    (v : ℚ) : AkinatorEngine × List ℚ × List ℚ :=
  (e, probs, update_belief e probs j v)

/-- State-threaded form of `get_next_question` (and of the
`_compute_entropy_mask`, `_entropy_topk` and `_pick_best_question` calls
it makes): the only writes of the source are to the locally allocated
entropy tensor (see `compute_entropy_mask_seq`), so the engine, the
belief vector and the asked mask pass through unchanged. -/
def get_next_question_st (e : AkinatorEngine) (H : ℚ → ℚ) (topk : ℕ → ℚ)
    (probs : List ℚ) (asked : List Bool) (last : Option ℕ)
    (resolved : List String) (counts : List (String × ℕ)) :
    AkinatorEngine × List ℚ × List Bool × Option (ℕ × String) :=
  (e, probs, asked, get_next_question e H topk probs asked last resolved counts)

/-- State-threaded form of `get_top_guess`: the source only reads
`current_probs` and `self.candidates`. -/
def get_top_guess_st (e : AkinatorEngine) (probs : List ℚ)
    (threshold : ℚ) : AkinatorEngine × List ℚ × Option (String × ℚ) :=
  (e, probs, get_top_guess e probs threshold)

end AkinatorEngine

/-- Concrete rational surrogate used to instantiate the abstract entropy
argument `H` in closed evaluations: like the binary entropy it is a
function of the clamped `p_yes` alone, and none of the evaluated
conclusions depend on its values. -/
def Hsur (p : ℚ) : ℚ := p * (1 - p)

/-- Concrete instantiation of the abstract top-K discrimination term. -/
def topk0 (_ : ℕ) : ℚ := 0

/-- Test engine of the spec's end-to-end scenario: three candidates A, B,
C with prior (0.5, 0.3, 0.2) and knowledge base [[1,0],[0,1],[1,1]]. -/
def engABC : AkinatorEngine :=
  { KB := [[1, 0], [0, 1], [1, 1]], prior_probs := [1/2, 3/10, 1/5],
    candidates := ["A", "B", "C"], features := ["Is tall?", "Is old?"] }

/-- Minimal engine with a single categorized (gender) feature. -/
def engGen : AkinatorEngine :=
  { KB := [[1]], prior_probs := [1], candidates := ["A"],
    features := ["Is gender male?"] }

/-- Engine with one gender feature and one uncategorized feature. -/
def engTwo : AkinatorEngine :=
  { KB := [[1, 0]], prior_probs := [1], candidates := ["A"],
    features := ["Is gender male?", "Is tall?"] }

/-- Engine with 26 equally likely candidates all having the single
feature, so `p_yes = 1` lies above `MAX_P_YES`. -/
def eng26 : AkinatorEngine :=
  { KB := List.replicate 26 [1], prior_probs := List.replicate 26 (1/26),
    candidates := List.replicate 26 "X", features := ["Is tall?"] }

/-- Uniform belief over the 26 candidates of `eng26`. -/
def probs26 : List ℚ := List.replicate 26 (1/26)

namespace AkinatorEngine

/-- Entry lookup in a map over `List.range`. -/
lemma getD_map_range {α : Type} (f : ℕ → Option α) (n j : ℕ) :
    ((List.range n).map f).getD j none = if j < n then f j else none := by
  rw [List.getD_eq_getElem?_getD, List.getElem?_map]
  by_cases h : j < n
  · rw [List.getElem?_range h]
    simp [h]
  · rw [List.getElem?_eq_none (by simpa using Nat.le_of_not_lt h)]
    simp [h]

/-- Soundness of the guarded argmax scan: any returned index carries a
finite score found at that index. -/
lemma bestAux_sound (Q : ℕ → ℚ → Prop) :
    ∀ (l : List (Option ℚ)) (i₀ : ℕ) (acc : Option (ℕ × ℚ)),
      (∀ bi bv, acc = some (bi, bv) → Q bi bv) →
      (∀ k v, l.getD k none = some v → Q (i₀ + k) v) →
      ∀ bi bv, bestAux l i₀ acc = some (bi, bv) → Q bi bv := by
  intro l
  induction l with
  | nil =>
    intro i₀ acc hacc _ bi bv h
    exact hacc bi bv h
  | cons s rest ih =>
    intro i₀ acc hacc hl bi bv h
    have hl' : ∀ k v, rest.getD k none = some v → Q (i₀ + 1 + k) v := by
      intro k v hk
      have hx := hl (k + 1) v (by simpa using hk)
      have harith : i₀ + (k + 1) = i₀ + 1 + k := by omega
      rwa [harith] at hx
    cases s with
    | none => exact ih (i₀ + 1) acc hacc hl' bi bv h
    | some v =>
      have hQ0 : Q i₀ v := by
        have hx := hl 0 v (by simp)
        simpa using hx
      cases acc with
      | none =>
        refine ih (i₀ + 1) (some (i₀, v)) ?_ hl' bi bv h
        intro bi' bv' h'
        simp only [Option.some.injEq, Prod.mk.injEq] at h'
        obtain ⟨rfl, rfl⟩ := h'
        exact hQ0
      | some bb =>
        obtain ⟨bi0, bv0⟩ := bb
        by_cases hlt : bv0 < v
        · rw [show bestAux (some v :: rest) i₀ (some (bi0, bv0)) =
              bestAux rest (i₀ + 1) (some (i₀, v)) by
            simp [bestAux, hlt]] at h
          refine ih (i₀ + 1) (some (i₀, v)) ?_ hl' bi bv h
          intro bi' bv' h'
          simp only [Option.some.injEq, Prod.mk.injEq] at h'
          obtain ⟨rfl, rfl⟩ := h'
          exact hQ0
        · rw [show bestAux (some v :: rest) i₀ (some (bi0, bv0)) =
              bestAux rest (i₀ + 1) (some (bi0, bv0)) by
            simp [bestAux, hlt]] at h
          exact ih (i₀ + 1) (some (bi0, bv0)) hacc hl' bi bv h

/-- Selection soundness of `_pick_best_question`: a returned index has a
finite combined score, and the text is the feature at that index. -/
lemma pick_best_some (e : AkinatorEngine) (scores : List (Option ℚ))
    (j : ℕ) (t : String) (h : pick_best_question e scores = some (j, t)) :
    (∃ v, scores.getD j none = some v) ∧ t = e.features.getD j "" := by
  unfold pick_best_question at h
  cases hb : bestAux scores 0 none with
  | none =>
    rw [hb] at h
    exact absurd h (by simp)
  | some p =>
    obtain ⟨i, v⟩ := p
    rw [hb] at h
    simp only [Option.some.injEq, Prod.mk.injEq] at h
    obtain ⟨rfl, rfl⟩ := h
    refine ⟨⟨v, ?_⟩, rfl⟩
    exact bestAux_sound (fun bi bv => scores.getD bi none = some bv) scores 0 none
      (by simp) (fun k w hk => by simpa using hk) i v hb

/-- Soundness of a single pass: a returned index `j` is in range, its
mask guard is false, and the returned text is `features[j]`. -/
lemma pass_some (e : AkinatorEngine) (H : ℚ → ℚ) (topk : ℕ → ℚ)
    (probs : List ℚ) (asked : List Bool) (last : Option ℕ)
    (resolved : List String) (counts : List (String × ℕ))
    (ss ac : Bool) (mp Mp : Option ℚ) (j : ℕ) (t : String)
    (h : pass_question e H topk probs asked last resolved counts ss ac mp Mp
      = some (j, t)) :
    j < e.M ∧
    maskGuard e probs asked last resolved counts ss ac mp Mp j = false ∧
    t = e.features.getD j "" := by
  unfold pass_question at h
  obtain ⟨⟨v, hv⟩, ht⟩ := pick_best_some _ _ _ _ h
  rw [getD_map_range] at hv
  by_cases hj : j < e.M
  · refine ⟨hj, ?_, ht⟩
    rw [if_pos hj] at hv
    unfold scoreEntry maskEntry at hv
    by_cases hg : maskGuard e probs asked last resolved counts ss ac mp Mp j = true
    · rw [if_pos hg] at hv
      exact absurd hv (by simp)
    · simpa using hg
  · rw [if_neg hj] at hv
    exact absurd hv (by simp)

/-- Decomposition of a false mask guard into its six components. -/
lemma maskGuard_false (e : AkinatorEngine) (probs : List ℚ)
    (asked : List Bool) (last : Option ℕ) (resolved : List String)
    (counts : List (String × ℕ)) (ss ac : Bool) (mp Mp : Option ℚ) (j : ℕ)
    (h : maskGuard e probs asked last resolved counts ss ac mp Mp j = false) :
    guardAsked asked j = false ∧ guardUnknown e j = false ∧
    guardBounds e probs mp Mp j = false ∧ guardResolved e resolved j = false ∧
    guardCap e counts ac j = false ∧ guardSame e last ss j = false := by
  unfold maskGuard at h
  simp only [Bool.or_eq_false_iff] at h
  exact ⟨h.1.1.1.1.1, h.1.1.1.1.2, h.1.1.1.2, h.1.1.2, h.1.2, h.2⟩

/-- Soundness of the full four-pass selection: a returned index is in
range, not asked, not of a resolved category, and the text matches. -/
lemma get_next_question_some (e : AkinatorEngine) (H : ℚ → ℚ)
    (topk : ℕ → ℚ) (probs : List ℚ) (asked : List Bool) (last : Option ℕ)
    (resolved : List String) (counts : List (String × ℕ)) (j : ℕ)
    (t : String)
    (h : get_next_question e H topk probs asked last resolved counts
      = some (j, t)) :
    j < e.M ∧ guardAsked asked j = false ∧
    guardResolved e resolved j = false ∧ t = e.features.getD j "" := by
  unfold get_next_question at h
  cases h1 : pass_question e H topk probs asked last resolved counts true true
      (pass1_bounds probs).1 (pass1_bounds probs).2 with
  | some r =>
    rw [h1] at h
    simp only [Option.some.injEq] at h
    obtain rfl := h
    obtain ⟨hj, hg, ht⟩ := pass_some _ _ _ _ _ _ _ _ _ _ _ _ _ _ h1
    obtain ⟨ha, _, _, hr, _, _⟩ := maskGuard_false _ _ _ _ _ _ _ _ _ _ _ hg
    exact ⟨hj, ha, hr, ht⟩
  | none =>
    rw [h1] at h
    cases h2 : pass_question e H topk probs asked last resolved counts true true
        (some (1/100)) (some (99/100)) with
    | some r =>
      rw [h2] at h
      simp only [Option.some.injEq] at h
      obtain rfl := h
      obtain ⟨hj, hg, ht⟩ := pass_some _ _ _ _ _ _ _ _ _ _ _ _ _ _ h2
      obtain ⟨ha, _, _, hr, _, _⟩ := maskGuard_false _ _ _ _ _ _ _ _ _ _ _ hg
      exact ⟨hj, ha, hr, ht⟩
    | none =>
      rw [h2] at h
      cases h3 : pass_question e H topk probs asked last resolved [] true false
          none none with
      | some r =>
        rw [h3] at h
        simp only [Option.some.injEq] at h
        obtain rfl := h
        obtain ⟨hj, hg, ht⟩ := pass_some _ _ _ _ _ _ _ _ _ _ _ _ _ _ h3
        obtain ⟨ha, _, _, hr, _, _⟩ := maskGuard_false _ _ _ _ _ _ _ _ _ _ _ hg
        exact ⟨hj, ha, hr, ht⟩
      | none =>
        rw [h3] at h
        obtain ⟨hj, hg, ht⟩ := pass_some _ _ _ _ _ _ _ _ _ _ _ _ _ _ h
        obtain ⟨ha, _, _, hr, _, _⟩ := maskGuard_false _ _ _ _ _ _ _ _ _ _ _ hg
        exact ⟨hj, ha, hr, ht⟩

end AkinatorEngine

namespace AkinatorEngine

/-- The guarded argmax scan returns `none` on an all-masked score list
(the `score.max() <= -inf` check of `_pick_best_question`). -/
lemma bestAux_all_none :
    ∀ (l : List (Option ℚ)) (i : ℕ), (∀ x ∈ l, x = none) →
      bestAux l i none = none := by
  intro l
  induction l with
  | nil => intro i _; rfl
  | cons s rest ih =>
    intro i hall
    have hs : s = none := hall s (by simp)
    subst hs
    exact ih (i + 1) (fun x hx => hall x (by simp [hx]))

/-- When every feature is already asked, any pass returns no question. -/
lemma pass_none_of_all_asked (e : AkinatorEngine) (H : ℚ → ℚ)
    (topk : ℕ → ℚ) (probs : List ℚ) (asked : List Bool) (last : Option ℕ)
    (resolved : List String) (counts : List (String × ℕ)) (ss ac : Bool)
    (mp Mp : Option ℚ)
    (hasked : ∀ j, j < e.M → asked.getD j false = true) :
    pass_question e H topk probs asked last resolved counts ss ac mp Mp
      = none := by
  unfold pass_question pick_best_question
  rw [bestAux_all_none]
  intro x hx
  obtain ⟨j, hj, rfl⟩ := List.mem_map.mp hx
  have hjM : j < e.M := List.mem_range.mp hj
  have h1 : guardAsked asked j = true := hasked j hjM
  have hg : maskGuard e probs asked last resolved counts ss ac mp Mp j = true := by
    unfold maskGuard
    simp [h1]
  simp [scoreEntry, maskEntry, hg]

end AkinatorEngine

namespace AkinatorEngine

/-- Lower bound on every likelihood entry: the Yes/No branches yield
`0.9` or `0.1`, the Unknown branch is clamped at `1e-6`. -/
lemma likelihood_lower (e : AkinatorEngine) (j : ℕ) (v : ℚ) :
    ∀ L ∈ likelihoodOf e j v, (1 : ℚ)/1000000 ≤ L := by
  intro L hL
  unfold likelihoodOf at hL
  split at hL
  · obtain ⟨c, _, rfl⟩ := List.mem_map.mp hL
    split <;> norm_num [SOFT_MATCH_LIKELIHOOD, SOFT_MIN_LIKELIHOOD]
  · split at hL
    · obtain ⟨c, _, rfl⟩ := List.mem_map.mp hL
      split <;> norm_num [SOFT_MATCH_LIKELIHOOD, SOFT_MIN_LIKELIHOOD]
    · obtain ⟨c, _, rfl⟩ := List.mem_map.mp hL
      exact le_max_right _ _

/-- Length of the likelihood vector: one entry per candidate. -/
lemma likelihood_length (e : AkinatorEngine) (j : ℕ) (v : ℚ) :
    (likelihoodOf e j v).length = e.N := by
  unfold likelihoodOf colKB N
  split
  · simp
  · split <;> simp

/-- Sum lower bound for the elementwise product of a non-negative vector
with a vector bounded below by `c ≥ 0`. -/
lemma sum_zipWith_mul_ge (c : ℚ) :
    ∀ (ps Ls : List ℚ), ps.length = Ls.length → (∀ x ∈ ps, 0 ≤ x) →
      (∀ L ∈ Ls, c ≤ L) →
      c * ps.sum ≤ (List.zipWith (fun a b => a * b) ps Ls).sum := by
  intro ps
  induction ps with
  | nil => intro Ls _ _ _; simp
  | cons p rest ih =>
    intro Ls hlen hps hLs
    cases Ls with
    | nil => simp at hlen
    | cons L Lrest =>
      simp only [List.zipWith_cons_cons, List.sum_cons]
      have hp : 0 ≤ p := hps p (by simp)
      have hL : c ≤ L := hLs L (by simp)
      have h1 : c * p ≤ p * L := by
        calc c * p = p * c := mul_comm c p
          _ ≤ p * L := mul_le_mul_of_nonneg_left hL hp
      have h2 := ih Lrest (by simpa using hlen)
        (fun x hx => hps x (by simp [hx]))
        (fun L' hL' => hLs L' (by simp [hL']))
      calc c * (p + rest.sum) = c * p + c * rest.sum := mul_add c p rest.sum
        _ ≤ p * L + (List.zipWith (fun a b => a * b) rest Lrest).sum :=
            add_le_add h1 h2

/-- Non-negativity of the elementwise product of non-negative vectors. -/
lemma zipWith_mul_nonneg :
    ∀ (ps Ls : List ℚ), (∀ x ∈ ps, 0 ≤ x) → (∀ L ∈ Ls, 0 ≤ L) →
      ∀ x ∈ List.zipWith (fun a b => a * b) ps Ls, 0 ≤ x := by
  intro ps
  induction ps with
  | nil => intro Ls _ _ x hx; simp at hx
  | cons p rest ih =>
    intro Ls hps hLs x hx
    cases Ls with
    | nil => simp at hx
    | cons L Lrest =>
      simp only [List.zipWith_cons_cons, List.mem_cons] at hx
      rcases hx with rfl | hx
      · exact mul_nonneg (hps p (by simp)) (hLs L (by simp))
      · exact ih Lrest (fun y hy => hps y (by simp [hy]))
          (fun L' hL' => hLs L' (by simp [hL'])) x hx

/-- Sum of a list divided elementwise equals the divided sum. -/
lemma sum_map_div (l : List ℚ) (T : ℚ) :
    (l.map (fun p => p / T)).sum = l.sum / T := by
  induction l with
  | nil => simp
  | cons p rest ih => simp [add_div, ih]

/-- The raw normalization denominator of `update_belief` is at least
`1e-6` when the belief is a probability vector of matching length. -/
lemma raw_total_ge (e : AkinatorEngine) (probs : List ℚ) (j : ℕ) (v : ℚ)
    (hlen : probs.length = e.N) (hnn : ∀ x ∈ probs, 0 ≤ x)
    (hsum : probs.sum = 1) :
    (1 : ℚ)/1000000 ≤
      (List.zipWith (fun a b => a * b) probs (likelihoodOf e j v)).sum := by
  have h := sum_zipWith_mul_ge ((1 : ℚ)/1000000) probs
    (likelihoodOf e j v) (by rw [hlen, likelihood_length])
    hnn (likelihood_lower e j v)
  rwa [hsum, mul_one] at h

/-- Under the same hypotheses the flooring branch is not taken: the
denominator `beliefTotal` equals the raw sum. -/
lemma beliefTotal_eq (e : AkinatorEngine) (probs : List ℚ) (j : ℕ) (v : ℚ)
    (hlen : probs.length = e.N) (hnn : ∀ x ∈ probs, 0 ≤ x)
    (hsum : probs.sum = 1) :
    beliefTotal e probs j v =
      (List.zipWith (fun a b => a * b) probs (likelihoodOf e j v)).sum := by
  unfold beliefTotal
  rw [if_neg]
  exact not_lt.mpr (le_trans (by norm_num) (raw_total_ge e probs j v hlen hnn hsum))

end AkinatorEngine

namespace AkinatorEngine

/-- A fold of `max` only grows its accumulator. -/
lemma le_foldl_max : ∀ (rest : List ℚ) (x : ℚ), x ≤ rest.foldl max x := by
  intro rest
  induction rest with
  | nil => intro x; exact le_refl x
  | cons y t ih =>
    intro x
    exact le_trans (le_max_left x y) (ih (max x y))

/-- The maximum of a nonempty non-negative belief vector is
non-negative. -/
lemma maxQ_nonneg (probs : List ℚ) (hne : probs ≠ [])
    (hnn : ∀ x ∈ probs, 0 ≤ x) : 0 ≤ maxQ probs := by
  cases probs with
  | nil => exact absurd rfl hne
  | cons x rest =>
    exact le_trans (hnn x (by simp)) (le_foldl_max rest x)

/-- Pointwise description of a masking loop of `_compute_entropy_mask`:
after folding the conditional writes over `range n`, entry `k` is `-inf`
when `k < n` and the guard fires at `k`, and is untouched otherwise. -/
lemma getD_maskFold (g : ℕ → Bool) :
    ∀ (n : ℕ) (l : List (Option ℚ)) (k : ℕ),
      (maskFold n g l).getD k none =
        if k < n ∧ g k = true then none else l.getD k none := by
  intro n
  induction n with
  | zero =>
    intro l k
    simp [maskFold]
  | succ m ih =>
    intro l k
    unfold maskFold at ih ⊢
    rw [show List.range (m + 1) = List.range m ++ [m] by simpa using List.range_succ m]
    rw [List.foldl_append]
    simp only [List.foldl_cons, List.foldl_nil]
    have hstep : ∀ (acc : List (Option ℚ)),
        maskFoldStep g acc m = if g m = true then acc.set m none else acc :=
      fun acc => rfl
    rw [hstep]
    by_cases hg : g m = true
    · rw [if_pos hg]
      by_cases hk : k = m
      · subst hk
        have hset : ((List.foldl (maskFoldStep g) l (List.range k)).set k none).getD k none = none := by
          rw [List.getD_eq_getElem?_getD]
          by_cases hlt : k < (List.foldl (maskFoldStep g) l (List.range k)).length
          · rw [List.getElem?_set_eq_of_lt _ hlt]
            rfl
          · rw [List.getElem?_eq_none]
            · rfl
            · rw [List.length_set]
              exact Nat.le_of_not_lt hlt
        rw [hset, if_pos ⟨Nat.lt_succ_self k, hg⟩]
      · have hset : ((List.foldl (maskFoldStep g) l (List.range m)).set m none).getD k none =
            (List.foldl (maskFoldStep g) l (List.range m)).getD k none := by
          rw [List.getD_eq_getElem?_getD, List.getD_eq_getElem?_getD,
            List.getElem?_set_ne (fun hmk => hk (hmk.symm))]
        rw [hset, ih l k]
        by_cases hkm : k < m
        · simp [hkm, Nat.lt_succ_of_lt hkm]
        · have hks : ¬ k < m + 1 := by omega
          simp [hkm, hks]
    · rw [if_neg hg]
      rw [ih l k]
      by_cases hk : k = m
      · subst hk
        have hgf : ¬ (g k = true) := hg
        simp [hgf]
      · by_cases hkm : k < m
        · simp [hkm, Nat.lt_succ_of_lt hkm]
        · have hks : ¬ k < m + 1 := by omega
          simp [hkm, hks]

/-- Masking loops preserve the length of the entropy list. -/
lemma length_maskFold (g : ℕ → Bool) (n : ℕ) (l : List (Option ℚ)) :
    (maskFold n g l).length = l.length := by
  suffices h : ∀ (idxs : List ℕ) (l : List (Option ℚ)),
      (idxs.foldl (maskFoldStep g) l).length = l.length by
    exact h (List.range n) l
  intro idxs
  induction idxs with
  | nil => intro l; rfl
  | cons i t ih =>
    intro l
    rw [List.foldl_cons, ih]
    unfold maskFoldStep
    by_cases hi : g i = true
    · rw [if_pos hi, List.length_set]
    · rw [if_neg hi]

/-- In-range lookup as an optional lookup. -/
lemma getElem?_eq_some_getD (l : List (Option ℚ)) (i : ℕ)
    (h : i < l.length) : l[i]? = some (l.getD i none) := by
  rw [List.getD_eq_getElem?_getD, List.getElem?_eq_getElem h]
  rfl

/-- The sequential `_compute_entropy_mask` — unmasked entropies followed
by the six in-place masking loops — computes exactly the pointwise
`maskEntry` vector. -/
lemma compute_entropy_mask_seq_eq (e : AkinatorEngine) (H : ℚ → ℚ)
    (probs : List ℚ) (asked : List Bool) (last : Option ℕ)
    (resolved : List String) (counts : List (String × ℕ))
    (ss ac : Bool) (mp Mp : Option ℚ) :
    compute_entropy_mask_seq e H probs asked last resolved counts ss ac mp Mp =
      (List.range e.M).map
        (maskEntry e H probs asked last resolved counts ss ac mp Mp) := by
  have hlen : (compute_entropy_mask_seq e H probs asked last resolved counts ss ac mp Mp).length = e.M := by
    unfold compute_entropy_mask_seq
    simp only [length_maskFold, List.length_map, List.length_range]
  have hlen2 : ((List.range e.M).map
      (maskEntry e H probs asked last resolved counts ss ac mp Mp)).length = e.M := by
    simp
  apply List.ext_getElem?
  intro i
  by_cases hi : i < e.M
  · rw [getElem?_eq_some_getD _ i (by rw [hlen]; exact hi),
      getElem?_eq_some_getD _ i (by rw [hlen2]; exact hi)]
    congr 1
    rw [getD_map_range]
    rw [if_pos hi]
    unfold compute_entropy_mask_seq
    simp only [getD_maskFold, getD_map_range]
    cases h1 : guardAsked asked i <;> cases h2 : guardUnknown e i <;>
      cases h3 : guardBounds e probs mp Mp i <;>
      cases h4 : guardResolved e resolved i <;>
      cases h5 : guardCap e counts ac i <;> cases h6 : guardSame e last ss i <;>
      simp [maskEntry, maskGuard, h1, h2, h3, h4, h5, h6, hi]
  · rw [List.getElem?_eq_none (by rw [hlen]; exact Nat.le_of_not_lt hi),
      List.getElem?_eq_none (by rw [hlen2]; exact Nat.le_of_not_lt hi)]

end AkinatorEngine

namespace AkinatorEngine

/-- Positivity transfer through the normalized Bayesian product: a
candidate with positive prior keeps positive posterior when every
likelihood and the denominator are positive. -/
lemma forall₂_pos :
    ∀ (ps Ls : List ℚ) (T : ℚ), 0 < T → (∀ L ∈ Ls, 0 < L) →
      ps.length = Ls.length →
      List.Forall₂ (fun p r => 0 < p → 0 < r) ps
        ((List.zipWith (fun a b => a * b) ps Ls).map (fun p => p / T)) := by
  intro ps
  induction ps with
  | nil =>
    intro Ls T _ _ hlen
    cases Ls with
    | nil => exact List.Forall₂.nil
    | cons L Lr => simp at hlen
  | cons p rest ih =>
    intro Ls T hT hLs hlen
    cases Ls with
    | nil => simp at hlen
    | cons L Lr =>
      simp only [List.zipWith_cons_cons, List.map_cons]
      refine List.Forall₂.cons ?_
        (ih Lr T hT (fun L' h => hLs L' (by simp [h])) (by simpa using hlen))
      intro hp
      exact div_pos (mul_pos hp (hLs L (by simp))) hT

/-- Evaluation of a pass on a single-feature engine whose sole feature is
unmasked. -/
lemma pass_some_single (e : AkinatorEngine) (H : ℚ → ℚ) (topk : ℕ → ℚ)
    (probs : List ℚ) (asked : List Bool) (last : Option ℕ)
    (resolved : List String) (counts : List (String × ℕ)) (ss ac : Bool)
    (mp Mp : Option ℚ) (hM : e.M = 1)
    (hg : maskGuard e probs asked last resolved counts ss ac mp Mp 0 = false) :
    pass_question e H topk probs asked last resolved counts ss ac mp Mp
      = some (0, e.features.getD 0 "") := by
  have hrange : List.range e.M = [0] := by rw [hM]; rfl
  simp [pass_question, pick_best_question, hrange, scoreEntry, maskEntry, hg, bestAux]

/-- Evaluation of a pass on a single-feature engine whose sole feature is
masked. -/
lemma pass_none_single (e : AkinatorEngine) (H : ℚ → ℚ) (topk : ℕ → ℚ)
    (probs : List ℚ) (asked : List Bool) (last : Option ℕ)
    (resolved : List String) (counts : List (String × ℕ)) (ss ac : Bool)
    (mp Mp : Option ℚ) (hM : e.M = 1)
    (hg : maskGuard e probs asked last resolved counts ss ac mp Mp 0 = true) :
    pass_question e H topk probs asked last resolved counts ss ac mp Mp = none := by
  have hrange : List.range e.M = [0] := by rw [hM]; rfl
  simp [pass_question, pick_best_question, hrange, scoreEntry, maskEntry, hg, bestAux]

/-- Evaluation of a pass on a two-feature engine whose first feature is
masked and second is not. -/
lemma pass_snd_of_two (e : AkinatorEngine) (H : ℚ → ℚ) (topk : ℕ → ℚ)
    (probs : List ℚ) (asked : List Bool) (last : Option ℕ)
    (resolved : List String) (counts : List (String × ℕ)) (ss ac : Bool)
    (mp Mp : Option ℚ) (hM : e.M = 2)
    (hg0 : maskGuard e probs asked last resolved counts ss ac mp Mp 0 = true)
    (hg1 : maskGuard e probs asked last resolved counts ss ac mp Mp 1 = false) :
    pass_question e H topk probs asked last resolved counts ss ac mp Mp
      = some (1, e.features.getD 1 "") := by
  have hrange : List.range e.M = [0, 1] := by rw [hM]; rfl
  simp [pass_question, pick_best_question, hrange, scoreEntry, maskEntry, hg0, hg1, bestAux]

end AkinatorEngine

open AkinatorEngine

/-- C3: for every belief vector that is non-negative and sums to 1 (of
the engine's candidate length), and every feature index and answer value,
`update_belief` returns a vector that is non-negative and sums exactly
to 1 (the rational model incurs no floating error). -/
theorem C3_update_belief_preserves_distribution (e : AkinatorEngine)
    (probs : List ℚ) (j : ℕ) (v : ℚ) (hlen : probs.length = e.N)
    (hnn : ∀ x ∈ probs, 0 ≤ x) (hsum : probs.sum = 1) :
    (∀ x ∈ update_belief e probs j v, 0 ≤ x) ∧
    (update_belief e probs j v).sum = 1 := by
  have hLnn : ∀ L ∈ likelihoodOf e j v, (0 : ℚ) ≤ L :=
    fun L hL => le_trans (by norm_num) (likelihood_lower e j v L hL)
  have hT := beliefTotal_eq e probs j v hlen hnn hsum
  have hge := raw_total_ge e probs j v hlen hnn hsum
  have hpos : 0 < beliefTotal e probs j v := by
    rw [hT]
    exact lt_of_lt_of_le (by norm_num) hge
  constructor
  · intro x hx
    unfold update_belief at hx
    obtain ⟨y, hy, rfl⟩ := List.mem_map.mp hx
    exact div_nonneg
      (zipWith_mul_nonneg probs (likelihoodOf e j v) hnn hLnn y hy)
      (le_of_lt hpos)
  · unfold update_belief
    rw [sum_map_div, ← hT, div_self (ne_of_gt hpos)]

/-- Witness for C3 at a concrete probability vector (Unknown answer
branch). -/
theorem C3_witness :
    (∀ x ∈ update_belief engABC [1/2, 3/10, 1/5] 1 (1/2), 0 ≤ x) ∧
    (update_belief engABC [1/2, 3/10, 1/5] 1 (1/2)).sum = 1 :=
  C3_update_belief_preserves_distribution engABC [1/2, 3/10, 1/5] 1 (1/2)
    rfl (by norm_num) (by norm_num)

/-- C4: every per-candidate likelihood is at least `1e-6`, hence the raw
renormalization denominator is at least `1e-6`, the `1e-12`
divide-by-zero floor branch is unreachable, and no candidate with
strictly positive belief is driven to exactly 0. -/
theorem C4_no_candidate_zeroed (e : AkinatorEngine) (probs : List ℚ)
    (j : ℕ) (v : ℚ) (hlen : probs.length = e.N)
    (hnn : ∀ x ∈ probs, 0 ≤ x) (hsum : probs.sum = 1) :
    (∀ L ∈ likelihoodOf e j v, (1 : ℚ)/1000000 ≤ L) ∧
    (1 : ℚ)/1000000 ≤
      (List.zipWith (fun a b => a * b) probs (likelihoodOf e j v)).sum ∧
    ¬ (List.zipWith (fun a b => a * b) probs (likelihoodOf e j v)).sum
        < 1/1000000000000 ∧
    List.Forall₂ (fun p r => 0 < p → 0 < r) probs
      (update_belief e probs j v) := by
  have hge := raw_total_ge e probs j v hlen hnn hsum
  have hT := beliefTotal_eq e probs j v hlen hnn hsum
  have hpos : 0 < beliefTotal e probs j v := by
    rw [hT]
    exact lt_of_lt_of_le (by norm_num) hge
  refine ⟨likelihood_lower e j v, hge,
    not_lt.mpr (le_trans (by norm_num) hge), ?_⟩
  unfold update_belief
  exact forall₂_pos probs (likelihoodOf e j v) (beliefTotal e probs j v)
    hpos
    (fun L hL => lt_of_lt_of_le (by norm_num) (likelihood_lower e j v L hL))
    (by rw [hlen, likelihood_length])

/-- Witness for C4 at a concrete probability vector (No answer). -/
theorem C4_witness :
    (∀ L ∈ likelihoodOf engABC 0 0, (1 : ℚ)/1000000 ≤ L) ∧
    (1 : ℚ)/1000000 ≤
      (List.zipWith (fun a b => a * b) [(1 : ℚ)/2, 3/10, 1/5]
        (likelihoodOf engABC 0 0)).sum ∧
    ¬ (List.zipWith (fun a b => a * b) [(1 : ℚ)/2, 3/10, 1/5]
        (likelihoodOf engABC 0 0)).sum < 1/1000000000000 ∧
    List.Forall₂ (fun p r => 0 < p → 0 < r) [(1 : ℚ)/2, 3/10, 1/5]
      (update_belief engABC [1/2, 3/10, 1/5] 0 0) :=
  C4_no_candidate_zeroed engABC [1/2, 3/10, 1/5] 0 0 rfl (by norm_num)
    (by norm_num)

/-- C5: a Yes/Probably answer (`v ≥ 0.7`) multiplies each belief entry by
`0.9` when `KB[i,j] ≥ 0.5` and by `0.1` otherwise and renormalizes by the
(floored) sum; on the spec's concrete scenario this yields exactly
`(0.45/0.66, 0.03/0.66, 0.18/0.66)`. -/
theorem C5_yes_update_formula :
    (∀ (e : AkinatorEngine) (probs : List ℚ) (j : ℕ) (v : ℚ),
      YES_THRESHOLD ≤ v →
      update_belief e probs j v =
        (List.zipWith
          (fun p c => p * (if (1 : ℚ)/2 ≤ c then SOFT_MATCH_LIKELIHOOD
            else SOFT_MIN_LIKELIHOOD)) probs (colKB e j)).map
          (fun p => p / beliefTotal e probs j v)) ∧
    update_belief engABC [1/2, 3/10, 1/5] 0 1 = [15/22, 1/22, 3/11] := by
  constructor
  · intro e probs j v hv
    unfold update_belief likelihoodOf
    rw [if_pos hv, List.zipWith_map_right]
  · norm_num [update_belief, likelihoodOf, colKB, beliefTotal, engABC,
      YES_THRESHOLD, SOFT_MATCH_LIKELIHOOD, SOFT_MIN_LIKELIHOOD]

/-- Witness for C5 at the Probably answer `v = 0.75`. -/
theorem C5_witness :
    update_belief engABC [1/2, 3/10, 1/5] 0 (3/4) =
      (List.zipWith
        (fun p c => p * (if (1 : ℚ)/2 ≤ c then SOFT_MATCH_LIKELIHOOD
          else SOFT_MIN_LIKELIHOOD)) [(1 : ℚ)/2, 3/10, 1/5]
        (colKB engABC 0)).map
        (fun p => p / beliefTotal engABC [1/2, 3/10, 1/5] 0 (3/4)) :=
  C5_yes_update_formula.1 engABC [1/2, 3/10, 1/5] 0 (3/4)
    (by norm_num [YES_THRESHOLD])

/-- C6: when the asked mask marks every feature as asked,
`get_next_question` returns the distinct no-question value `none`
(`(None, None)`) after all four relaxation passes, as a normal value. -/
theorem C6_exhaustion_returns_none (e : AkinatorEngine) (H : ℚ → ℚ)
    (topk : ℕ → ℚ) (probs : List ℚ) (asked : List Bool) (last : Option ℕ)
    (resolved : List String) (counts : List (String × ℕ))
    (hasked : ∀ j, j < e.M → asked.getD j false = true) :
    get_next_question e H topk probs asked last resolved counts = none := by
  unfold get_next_question
  rw [pass_none_of_all_asked e H topk probs asked last resolved counts true true
      (pass1_bounds probs).1 (pass1_bounds probs).2 hasked,
    pass_none_of_all_asked e H topk probs asked last resolved counts true true
      (some (1/100)) (some (99/100)) hasked,
    pass_none_of_all_asked e H topk probs asked last resolved [] true false
      none none hasked,
    pass_none_of_all_asked e H topk probs asked none resolved [] false false
      none none hasked]

/-- Witness for C6: the single-feature engine with its feature asked. -/
theorem C6_witness :
    get_next_question engGen Hsur topk0 [1] [true] none [] [] = none :=
  C6_exhaustion_returns_none engGen Hsur topk0 [1] [true] none [] []
    (by decide)

/-- C7: in every pass and for every constraint combination,
`get_next_question` never returns a feature whose `asked_mask` entry is
set. -/
theorem C7_never_returns_asked (e : AkinatorEngine) (H : ℚ → ℚ)
    (topk : ℕ → ℚ) (probs : List ℚ) (asked : List Bool) (last : Option ℕ)
    (resolved : List String) (counts : List (String × ℕ)) (j : ℕ)
    (t : String)
    (h : get_next_question e H topk probs asked last resolved counts
      = some (j, t)) :
    asked.getD j false = false :=
  (get_next_question_some e H topk probs asked last resolved counts j t h).2.1

/-- Witness for C7: the selector picks the unasked feature, whose mask
entry is unset. -/
theorem C7_witness :
    get_next_question engGen Hsur topk0 [1] [false] none [] []
      = some (0, "Is gender male?") ∧
    [false].getD 0 false = false := by
  have h2 : guardUnknown engGen 0 = false := by decide
  have h4 : guardResolved engGen [] 0 = false := by decide
  have h5 : guardCap engGen [] true 0 = false := by decide
  have h6 : guardSame engGen none true 0 = false := by decide
  have hb : pass1_bounds [(1 : ℚ)] = (none, none) := by
    norm_num [pass1_bounds, NARROWED_EFFECTIVE_N, effective_n,
      EFFECTIVE_PROB_THRESHOLD, List.countP, List.countP.go]
  have hg : maskGuard engGen [1] [false] none [] [] true true none none 0
      = false := by
    simp [maskGuard, guardAsked, guardBounds, h2, h4, h5, h6]
  have hp1 : pass_question engGen Hsur topk0 [1] [false] none [] [] true true
      none none = some (0, "Is gender male?") :=
    pass_some_single engGen Hsur topk0 [1] [false] none [] [] true true
      none none rfl hg
  have hfull : get_next_question engGen Hsur topk0 [1] [false] none [] []
      = some (0, "Is gender male?") := by
    simp only [get_next_question, hb, hp1]
  exact ⟨hfull,
    C7_never_returns_asked engGen Hsur topk0 [1] [false] none [] [] 0
      "Is gender male?" hfull⟩

/-- C9: `get_top_guess` returns the argmax candidate with the maximum
probability exactly when that maximum reaches the threshold and `none`
("not confident") otherwise; the spec's concrete guess scenario holds,
and at threshold 0 a non-negative nonempty belief always yields the
current best. -/
theorem C9_top_guess_threshold :
    (∀ (e : AkinatorEngine) (probs : List ℚ) (t : ℚ), probs ≠ [] →
      ((get_top_guess e probs t =
          some (e.candidates.getD (argmaxQ probs) "", maxQ probs)) ↔
        t ≤ maxQ probs) ∧
      ((get_top_guess e probs t = none) ↔ maxQ probs < t)) ∧
    (get_top_guess engABC [17/20, 1/10, 1/20] (8/10) = some ("A", 17/20) ∧
     get_top_guess engABC [17/20, 1/10, 1/20] (9/10) = none) ∧
    (∀ (e : AkinatorEngine) (probs : List ℚ), probs ≠ [] →
      (∀ x ∈ probs, 0 ≤ x) →
      get_top_guess e probs 0 =
        some (e.candidates.getD (argmaxQ probs) "", maxQ probs)) := by
  refine ⟨?_, ⟨?_, ?_⟩, ?_⟩
  · intro e probs t _
    unfold get_top_guess
    by_cases hlt : maxQ probs < t
    · rw [if_pos hlt]
      constructor
      · constructor
        · intro h
          exact absurd h (by simp)
        · intro h
          exact absurd hlt (not_lt.mpr h)
      · simp [hlt]
    · rw [if_neg hlt]
      constructor
      · constructor
        · intro _
          exact not_lt.mp hlt
        · intro _
          rfl
      · constructor
        · intro h
          exact absurd h (by simp)
        · intro h
          exact absurd h hlt
  · norm_num [get_top_guess, maxQ, argmaxQ, argmaxAux, engABC, max_def]
  · norm_num [get_top_guess, maxQ, engABC, max_def]
  · intro e probs hne hnn
    unfold get_top_guess
    rw [if_neg (not_lt.mpr (maxQ_nonneg probs hne hnn))]

/-- Witness for C9: forced final guess at threshold 0 on a concrete
belief. -/
theorem C9_witness :
    get_top_guess engGen [(1 : ℚ)] 0 =
      some (engGen.candidates.getD (argmaxQ [(1 : ℚ)]) "", maxQ [(1 : ℚ)]) :=
  C9_top_guess_threshold.2.2 engGen [(1 : ℚ)] (by simp) (by norm_num)

/-- C1 counterexample: on the uniform 26-candidate belief the effective
count exceeds 25, yet pass 1 applies the default `P(Yes)` bounds rather
than skipping them: `pass1_bounds` is not `(none, none)`, and the
out-of-bounds feature (`p_yes = 1 > 0.97`) is masked in pass 1 although
it would be eligible with the bounds skipped. -/
theorem C1_counterexample :
    NARROWED_EFFECTIVE_N < effective_n probs26 ∧
    pass1_bounds probs26 = (some MIN_P_YES, some MAX_P_YES) ∧
    maskEntry eng26 Hsur probs26 [false] none [] [] true true
      (some MIN_P_YES) (some MAX_P_YES) 0 = none ∧
    (maskEntry eng26 Hsur probs26 [false] none [] [] true true
      none none 0).isSome = true := by
  have hn : NARROWED_EFFECTIVE_N < effective_n probs26 := by
    norm_num [effective_n, NARROWED_EFFECTIVE_N, EFFECTIVE_PROB_THRESHOLD,
      probs26, List.replicate, List.countP, List.countP.go]
  have hpy : pYes eng26 probs26 0 = 1 := by
    norm_num [pYes, dot, colKB, eng26, probs26, List.replicate]
  refine ⟨hn, ?_, ?_, ?_⟩
  · unfold pass1_bounds
    rw [if_pos hn]
  · have hb : guardBounds eng26 probs26 (some MIN_P_YES) (some MAX_P_YES) 0
        = true := by
      norm_num [guardBounds, hpy, MIN_P_YES, MAX_P_YES]
    have hg : maskGuard eng26 probs26 [false] none [] [] true true
        (some MIN_P_YES) (some MAX_P_YES) 0 = true := by
      simp [maskGuard, hb]
    unfold maskEntry
    rw [if_pos hg]
  · have h2 : guardUnknown eng26 0 = false := by decide
    have h4 : guardResolved eng26 [] 0 = false := by decide
    have h5 : guardCap eng26 [] true 0 = false := by decide
    have h6 : guardSame eng26 none true 0 = false := by decide
    have hg : maskGuard eng26 probs26 [false] none [] [] true true
        none none 0 = false := by
      simp [maskGuard, guardAsked, guardBounds, h2, h4, h5, h6]
    unfold maskEntry
    rw [if_neg (by simp [hg])]
    rfl

/-- C1 amended: pass 1 of `get_next_question` applies the `P(Yes)`-bounds
exclusion with the default bounds exactly when the effective-candidate
count exceeds 25 (then any feature with `p_yes` outside `[0.03, 0.97]` is
masked), and skips the exclusion entirely when the count is at most 25 —
the converse of the claimed direction. -/
theorem C1_pass1_bounds_amended (e : AkinatorEngine) (H : ℚ → ℚ)
    (probs : List ℚ) (asked : List Bool) (last : Option ℕ)
    (resolved : List String) (counts : List (String × ℕ)) (j : ℕ) :
    (NARROWED_EFFECTIVE_N < effective_n probs →
      pass1_bounds probs = (some MIN_P_YES, some MAX_P_YES) ∧
      ((pYes e probs j < MIN_P_YES ∨ MAX_P_YES < pYes e probs j) →
        maskEntry e H probs asked last resolved counts true true
          (some MIN_P_YES) (some MAX_P_YES) j = none)) ∧
    (effective_n probs ≤ NARROWED_EFFECTIVE_N →
      pass1_bounds probs = (none, none)) := by
  constructor
  · intro hn
    constructor
    · unfold pass1_bounds
      rw [if_pos hn]
    · intro hout
      have hb : guardBounds e probs (some MIN_P_YES) (some MAX_P_YES) j
          = true := by
        unfold guardBounds
        rcases hout with hlt | hgt
        · simp [hlt]
        · simp [hgt]
      have hg : maskGuard e probs asked last resolved counts true true
          (some MIN_P_YES) (some MAX_P_YES) j = true := by
        simp [maskGuard, hb]
      unfold maskEntry
      rw [if_pos hg]
  · intro hn
    unfold pass1_bounds
    rw [if_neg (not_lt.mpr hn)]

/-- Witness for the amended C1: both directions at concrete beliefs, and
the mask firing on the out-of-bounds feature. -/
theorem C1_witness :
    pass1_bounds probs26 = (some MIN_P_YES, some MAX_P_YES) ∧
    maskEntry eng26 Hsur probs26 [false] none [] [] true true
      (some MIN_P_YES) (some MAX_P_YES) 0 = none ∧
    pass1_bounds [(1 : ℚ)] = (none, none) := by
  have hn : NARROWED_EFFECTIVE_N < effective_n probs26 := by
    norm_num [effective_n, NARROWED_EFFECTIVE_N, EFFECTIVE_PROB_THRESHOLD,
      probs26, List.replicate, List.countP, List.countP.go]
  have hpy : pYes eng26 probs26 0 = 1 := by
    norm_num [pYes, dot, colKB, eng26, probs26, List.replicate]
  have hle : effective_n [(1 : ℚ)] ≤ NARROWED_EFFECTIVE_N := by
    norm_num [effective_n, NARROWED_EFFECTIVE_N, EFFECTIVE_PROB_THRESHOLD,
      List.countP, List.countP.go]
  exact ⟨((C1_pass1_bounds_amended eng26 Hsur probs26 [false] none [] [] 0).1 hn).1,
    ((C1_pass1_bounds_amended eng26 Hsur probs26 [false] none [] [] 0).1 hn).2
      (Or.inr (by rw [hpy]; norm_num [MAX_P_YES])),
    (C1_pass1_bounds_amended eng26 Hsur [(1 : ℚ)] [false] none [] [] 0).2 hle⟩

/-- C2 amended: a category resolved by a Yes/Probably answer
(value ≥ 0.7, via the server's bookkeeping `resolved_after`) is never
asked again by `get_next_question`, in any of the four passes: the
resolved-category mask is unconditional, so relaxation passes 3 and 4 do
not override it. -/
theorem C2_resolved_category_never_returned (e : AkinatorEngine)
    (H : ℚ → ℚ) (topk : ℕ → ℚ) (probs : List ℚ) (asked : List Bool)
    (last : Option ℕ) (resolved : List String)
    (counts : List (String × ℕ)) (q : ℕ) (v : ℚ) (j : ℕ) (t : String)
    (c : String) (hcat : get_category_of_question e q = some c)
    (hv : YES_THRESHOLD ≤ v)
    (h : get_next_question e H topk probs asked last
      (resolved_after e resolved q v) counts = some (j, t)) :
    feature_category (e.features.getD j "") ≠ some c := by
  intro hjc
  obtain ⟨-, -, hres, -⟩ := get_next_question_some e H topk probs asked last
    (resolved_after e resolved q v) counts j t h
  unfold resolved_after at hres
  rw [hcat] at hres
  simp only [hv, if_true] at hres
  unfold guardResolved at hres
  rw [hjc] at hres
  simp at hres

/-- C2 counterexample: with the single gender feature resolved and
otherwise eligible (second conjunct: it is returned when not resolved),
no feature of any other category exists, yet all four passes refuse it
and the selector returns `none` — passes 3 and 4 do not override the
resolution. -/
theorem C2_counterexample :
    get_next_question engGen Hsur topk0 [1] [false] none ["gender"] []
      = none ∧
    get_next_question engGen Hsur topk0 [1] [false] none [] []
      = some (0, "Is gender male?") := by
  constructor
  · have h4 : guardResolved engGen ["gender"] 0 = true := by decide
    have hg : ∀ (lastE : Option ℕ) (cnt : List (String × ℕ)) (ss ac : Bool)
        (mp Mp : Option ℚ),
        maskGuard engGen [1] [false] lastE ["gender"] cnt ss ac mp Mp 0
          = true := by
      intro lastE cnt ss ac mp Mp
      simp [maskGuard, h4]
    have hp : ∀ (lastE : Option ℕ) (cnt : List (String × ℕ)) (ss ac : Bool)
        (mp Mp : Option ℚ),
        pass_question engGen Hsur topk0 [1] [false] lastE ["gender"] cnt
          ss ac mp Mp = none := by
      intro lastE cnt ss ac mp Mp
      exact pass_none_single engGen Hsur topk0 [1] [false] lastE ["gender"]
        cnt ss ac mp Mp rfl (hg lastE cnt ss ac mp Mp)
    simp only [get_next_question, hp]
  · have h2 : guardUnknown engGen 0 = false := by decide
    have h4 : guardResolved engGen [] 0 = false := by decide
    have h5 : guardCap engGen [] true 0 = false := by decide
    have h6 : guardSame engGen none true 0 = false := by decide
    have hb : pass1_bounds [(1 : ℚ)] = (none, none) := by
      norm_num [pass1_bounds, NARROWED_EFFECTIVE_N, effective_n,
        EFFECTIVE_PROB_THRESHOLD, List.countP, List.countP.go]
    have hg : maskGuard engGen [1] [false] none [] [] true true none none 0
        = false := by
      simp [maskGuard, guardAsked, guardBounds, h2, h4, h5, h6]
    have hp1 : pass_question engGen Hsur topk0 [1] [false] none [] [] true
        true none none = some (0, "Is gender male?") :=
      pass_some_single engGen Hsur topk0 [1] [false] none [] [] true true
        none none rfl hg
    simp only [get_next_question, hb, hp1]

/-- Witness for the amended C2: after resolving gender with a Yes, the
selector returns the uncategorized feature, whose category is not the
resolved one. -/
theorem C2_witness :
    get_next_question engTwo Hsur topk0 [1] [true, false] (some 0)
      (resolved_after engTwo [] 0 1) [("gender", 1)]
      = some (1, "Is tall?") ∧
    feature_category (engTwo.features.getD 1 "") ≠ some "gender" := by
  have hcat : get_category_of_question engTwo 0 = some "gender" := by decide
  have hres : resolved_after engTwo [] 0 1 = ["gender"] := by
    have hy : YES_THRESHOLD ≤ (1 : ℚ) := by norm_num [YES_THRESHOLD]
    unfold resolved_after
    rw [hcat]
    simp only [hy, if_true]
  have ha0 : guardAsked [true, false] 0 = true := by decide
  have hg0 : ∀ (mp Mp : Option ℚ),
      maskGuard engTwo [1] [true, false] (some 0) ["gender"] [("gender", 1)]
        true true mp Mp 0 = true := by
    intro mp Mp
    simp [maskGuard, ha0]
  have h2 : guardUnknown engTwo 1 = false := by decide
  have ha1 : guardAsked [true, false] 1 = false := by decide
  have h4 : guardResolved engTwo ["gender"] 1 = false := by decide
  have h5 : guardCap engTwo [("gender", 1)] true 1 = false := by decide
  have h6 : guardSame engTwo (some 0) true 1 = false := by decide
  have hb : pass1_bounds [(1 : ℚ)] = (none, none) := by
    norm_num [pass1_bounds, NARROWED_EFFECTIVE_N, effective_n,
      EFFECTIVE_PROB_THRESHOLD, List.countP, List.countP.go]
  have hg1 : maskGuard engTwo [1] [true, false] (some 0) ["gender"]
      [("gender", 1)] true true none none 1 = false := by
    simp [maskGuard, ha1, guardBounds, h2, h4, h5, h6]
  have hp1 : pass_question engTwo Hsur topk0 [1] [true, false] (some 0)
      ["gender"] [("gender", 1)] true true none none
      = some (1, "Is tall?") :=
    pass_snd_of_two engTwo Hsur topk0 [1] [true, false] (some 0) ["gender"]
      [("gender", 1)] true true none none rfl (hg0 none none) hg1
  have hfull : get_next_question engTwo Hsur topk0 [1] [true, false]
      (some 0) (resolved_after engTwo [] 0 1) [("gender", 1)]
      = some (1, "Is tall?") := by
    rw [hres]
    simp only [get_next_question, hb, hp1]
  exact ⟨hfull,
    C2_resolved_category_never_returned engTwo Hsur topk0 [1] [true, false]
      (some 0) [] [("gender", 1)] 0 1 1 "Is tall?" "gender" hcat
      (by norm_num [YES_THRESHOLD]) hfull⟩

/-- C8: with the cap active (passes 1 and 2 pass `apply_cap = True` and
the live counts), a returned feature's category always has count below
`MAX_QUESTIONS_PER_CATEGORY`; only passes 3 and 4, which drop the counts
and the cap, can return a capped-category feature — witnessed by the full
selector returning the capped gender feature via pass 3. -/
theorem C8_cap_enforced_in_passes_1_2 :
    (∀ (e : AkinatorEngine) (H : ℚ → ℚ) (topk : ℕ → ℚ) (probs : List ℚ)
      (asked : List Bool) (last : Option ℕ) (resolved : List String)
      (counts : List (String × ℕ)) (mp Mp : Option ℚ) (j : ℕ) (t : String)
      (c : String),
      pass_question e H topk probs asked last resolved counts true true mp Mp
        = some (j, t) →
      feature_category (e.features.getD j "") = some c →
      lookupCount counts c < MAX_QUESTIONS_PER_CATEGORY) ∧
    get_next_question engGen Hsur topk0 [1] [false] none [] [("gender", 4)]
      = some (0, "Is gender male?") := by
  constructor
  · intro e H topk probs asked last resolved counts mp Mp j t c hpass hcat
    obtain ⟨-, hgd, -⟩ := pass_some e H topk probs asked last resolved counts
      true true mp Mp j t hpass
    obtain ⟨-, -, -, -, hcap, -⟩ := maskGuard_false e probs asked last
      resolved counts true true mp Mp j hgd
    unfold guardCap at hcap
    rw [hcat] at hcap
    simp at hcap
    exact hcap
  · have h5t : guardCap engGen [("gender", 4)] true 0 = true := by decide
    have hg12 : ∀ (mp Mp : Option ℚ),
        maskGuard engGen [1] [false] none [] [("gender", 4)] true true
          mp Mp 0 = true := by
      intro mp Mp
      simp [maskGuard, h5t]
    have hp1 := pass_none_single engGen Hsur topk0 [1] [false] none []
      [("gender", 4)] true true (pass1_bounds [1]).1 (pass1_bounds [1]).2
      rfl (hg12 _ _)
    have hp2 := pass_none_single engGen Hsur topk0 [1] [false] none []
      [("gender", 4)] true true (some (1/100)) (some (99/100)) rfl
      (hg12 _ _)
    have h2 : guardUnknown engGen 0 = false := by decide
    have h4 : guardResolved engGen [] 0 = false := by decide
    have h5f : guardCap engGen [] false 0 = false := by decide
    have h6 : guardSame engGen none true 0 = false := by decide
    have hg3 : maskGuard engGen [1] [false] none [] [] true false none none 0
        = false := by
      simp [maskGuard, guardAsked, guardBounds, h2, h4, h5f, h6]
    have hp3 := pass_some_single engGen Hsur topk0 [1] [false] none [] []
      true false none none rfl hg3
    simp only [get_next_question, hp1, hp2, hp3]
    rfl

/-- Witness for C8: a pass-1 selection under a count strictly below the
cap. -/
theorem C8_witness :
    pass_question engGen Hsur topk0 [1] [false] none [] [("gender", 3)]
      true true none none = some (0, "Is gender male?") ∧
    lookupCount [("gender", 3)] "gender" < MAX_QUESTIONS_PER_CATEGORY := by
  have h2 : guardUnknown engGen 0 = false := by decide
  have h4 : guardResolved engGen [] 0 = false := by decide
  have h5 : guardCap engGen [("gender", 3)] true 0 = false := by decide
  have h6 : guardSame engGen none true 0 = false := by decide
  have hg : maskGuard engGen [1] [false] none [] [("gender", 3)] true true
      none none 0 = false := by
    simp [maskGuard, guardAsked, guardBounds, h2, h4, h5, h6]
  have hpass : pass_question engGen Hsur topk0 [1] [false] none []
      [("gender", 3)] true true none none = some (0, "Is gender male?") := by
    rw [pass_some_single engGen Hsur topk0 [1] [false] none [] [("gender", 3)]
      true true none none rfl hg]
    rfl
  exact ⟨hpass,
    C8_cap_enforced_in_passes_1_2.1 engGen Hsur topk0 [1] [false] none []
      [("gender", 3)] none none 0 "Is gender male?" "gender" hpass
      (by decide)⟩

/-- C10: the three core operations leave the engine state (knowledge
base, prior, candidate and feature lists) and their inputs unchanged:
the state-threaded forms return the engine, the belief vector and the
asked mask exactly as given while producing a fresh output, and the only
in-place writes of the source — into the locally allocated entropy tensor
of `_compute_entropy_mask` — compute exactly the pure pointwise mask. -/
theorem C10_operations_pure (e : AkinatorEngine) (H : ℚ → ℚ)
    (topk : ℕ → ℚ) (probs : List ℚ) (asked : List Bool) (last : Option ℕ)
    (resolved : List String) (counts : List (String × ℕ)) (ss ac : Bool)
    (mp Mp : Option ℚ) (j : ℕ) (v th : ℚ) :
    update_belief_st e probs j v = (e, probs, update_belief e probs j v) ∧
    get_next_question_st e H topk probs asked last resolved counts =
      (e, probs, asked,
        get_next_question e H topk probs asked last resolved counts) ∧
    get_top_guess_st e probs th = (e, probs, get_top_guess e probs th) ∧
    compute_entropy_mask_seq e H probs asked last resolved counts ss ac
        mp Mp =
      (List.range e.M).map
        (maskEntry e H probs asked last resolved counts ss ac mp Mp) :=
  ⟨rfl, rfl, rfl,
    compute_entropy_mask_seq_eq e H probs asked last resolved counts ss ac
      mp Mp⟩
